import Mathlib

/-!
Verification of srttools.py: timestamp parsing/formatting, the SRT
state-machine parser, and the delay transform.

Strings are modelled as lists of characters (a file is a list of lines).
Python `str.isdigit` / `str.strip` are modelled over the ASCII range,
which is the range the SRT format and all claims are about.
-/

set_option maxHeartbeats 1000000

/-- Character test for the regex class [0-9] (ASCII decimal digit). -/
def isDigitC (c : Char) : Bool := 48 ≤ c.toNat && c.toNat ≤ 57

/-- Character test for ASCII whitespace, the set removed by `str.strip()`. -/
def isSpaceC (c : Char) : Bool :=
  c.toNat = 32 || c.toNat = 9 || c.toNat = 10 || c.toNat = 13 || c.toNat = 11 || c.toNat = 12

/-- Python `line.strip()`: remove leading and trailing whitespace. -/
def strip (l : List Char) : List Char :=
  ((l.dropWhile isSpaceC).reverse.dropWhile isSpaceC).reverse

/-- Python `int(s)` on a string of decimal digits. -/
def digitsToNat (l : List Char) : Nat :=
  l.foldl (fun a c => 10 * a + (c.toNat - 48)) 0

/-- The decimal digit character for `d ≤ 9`. -/
def digitChar (d : Nat) : Char := Char.ofNat (48 + d)

/-- Decimal representation of `n`, most significant digit first: the division
loop behind Python `str(n)` for a non-negative int. The first argument is
fuel; `n + 1` units always suffice since the value shrinks 10-fold per step. -/
def natReprAux : Nat → Nat → List Char
  | 0, _ => []
  | fuel + 1, n =>
    if n < 10 then [digitChar n]
    else natReprAux fuel (n / 10) ++ [digitChar (n % 10)]

/-- Python `str(n)` for a non-negative int. -/
def natRepr (n : Nat) : List Char := natReprAux (n + 1) n

/-- Python `s.zfill(w)` for an unsigned decimal string: left-pad with '0' to width `w`. -/
def zfill (w : Nat) (l : List Char) : List Char :=
  List.replicate (w - l.length) '0' ++ l

/-- Split a character list on every occurrence of a one-character separator,
Python `s.split(sep)` for a single-character `sep`. -/
def splitOnChar (sep : Char) : List Char → List (List Char)
  | [] => [[]]
  | c :: cs =>
    if c = sep then [] :: splitOnChar sep cs
    else
      match splitOnChar sep cs with
      | [] => [[c]]
      | t :: ts => (c :: t) :: ts

/-- Rejoin the parts produced by `splitOnChar`, interposing the separator. -/
def joinOn (sep : Char) : List (List Char) → List Char
  | [] => []
  | [p] => p
  | p :: ps => p ++ sep :: joinOn sep ps

/-- Python `line.split("-->")`: split on each leftmost occurrence of the
three-character separator `-->`. -/
def splitArrow : List Char → List (List Char)
  | [] => [[]]
  | '-' :: '-' :: '>' :: rest => [] :: splitArrow rest
  | c :: cs =>
    match splitArrow cs with
    | [] => [[c]]
    | t :: ts => (c :: t) :: ts

/-- The error kinds the program can raise: `NegativeTimestampException`, the
several `ValueError` sites (distinguished by their message), and the
`RuntimeError("invalid state")` guard. -/
inductive PyErr where
  | negativeTimestamp
  | notValidTimestamp
  | expectedNumber
  | expectedTwoTimestamps
  | expectedText
  | endedMidSubtitle
  | invalidState
deriving DecidableEq

deriving instance DecidableEq for Except

/-- The `Timestamp` dataclass: a scalar count of milliseconds. Every timestamp
the program constructs is non-negative (`from_str` sums non-negative
components; `delayed_by` clamps or raises), so `millis` is a `Nat`. -/
structure Timestamp where
  millis : Nat
deriving DecidableEq

/-- Full-string match of the regex alternative `([01]?[0-9]|2[0-3])`
(the hour field). -/
def hourOK : List Char → Bool
  | [c] => isDigitC c
  | [c1, c2] =>
    ((c1.toNat = 48 || c1.toNat = 49) && isDigitC c2) ||
      (c1.toNat = 50 && (48 ≤ c2.toNat && c2.toNat ≤ 51))
  | _ => false

/-- Full-string match of the regex group `([0-5]?[0-9])` (minute and second fields). -/
def minsecOK : List Char → Bool
  | [c] => isDigitC c
  | [c1, c2] => (48 ≤ c1.toNat && c1.toNat ≤ 53) && isDigitC c2
  | _ => false

/-- Full-string match of the regex group `([0-9]{1,3})` (millisecond field). -/
def msOK (l : List Char) : Bool :=
  (1 ≤ l.length && l.length ≤ 3) && l.all isDigitC

/-- `Timestamp.from_str`: full-match of
`([01]?[0-9]|2[0-3]):([0-5]?[0-9]):([0-5]?[0-9]),([0-9]\x7b1,3\x7d)` and the
sum `millis + 1000*seconds + 60*1000*minutes + 60*60*1000*hours`; any failure
is the `ValueError("... is not a valid timestamp")`. The literal separators
`:` and `,` appear in no character class, so a full match is exactly a split
into the four component groups. -/
def Timestamp.from_str (s : List Char) : Except PyErr Timestamp :=
  match splitOnChar ':' s with
  | [hp, mp, rest] =>
    match splitOnChar ',' rest with
    | [sp, msp] =>
      if hourOK hp && minsecOK mp && minsecOK sp && msOK msp then
        .ok ⟨digitsToNat msp + 1000 * digitsToNat sp + 60 * 1000 * digitsToNat mp
              + 60 * 60 * 1000 * digitsToNat hp⟩
      else .error .notValidTimestamp
    | _ => .error .notValidTimestamp
  | _ => .error .notValidTimestamp

/-- `Timestamp.__str__`: divmod chains then zero-padded rendering
`HH:MM:SS,mmm`. -/
def Timestamp.toStr (t : Timestamp) : List Char :=
  zfill 2 (natRepr (t.millis / (60 * 60 * 1000))) ++
    ':' :: zfill 2 (natRepr (t.millis % (60 * 60 * 1000) / (60 * 1000))) ++
    ':' :: zfill 2 (natRepr (t.millis % (60 * 60 * 1000) % (60 * 1000) / 1000)) ++
    ',' :: zfill 3 (natRepr (t.millis % (60 * 60 * 1000) % (60 * 1000) % 1000))

/-- `Timestamp.delayed_by`: raises `NegativeTimestampException` when the shifted
value is negative and clamping is off, otherwise returns
`Timestamp(max(self.millis + millis, 0))`. -/
def Timestamp.delayed_by (t : Timestamp) (millis : Int) (clamp_to_zero : Bool) :
    Except PyErr Timestamp :=
  if (t.millis : Int) + millis < 0 && !clamp_to_zero then .error .negativeTimestamp
  else .ok ⟨(max ((t.millis : Int) + millis) 0).toNat⟩

/-- The `Subtitle` dataclass. -/
structure Subtitle where
  number : Nat
  start : Timestamp
  end_ : Timestamp
  text : List (List Char)
deriving DecidableEq

/-- The `ParserState` enum. -/
inductive ParserState where
  | NEW_SUBTITLE
  | TIMESTAMPS
  | TEXT
deriving DecidableEq

/-- The mutable locals of `parse_srt_file`: accumulated subtitles, the pending
record's fields, and the current state. -/
structure PState where
  subtitles : List Subtitle
  number : Option Nat
  start : Option Timestamp
  end_ : Option Timestamp
  text : List (List Char)
  state : ParserState
deriving DecidableEq

/-- Python `line.isdigit()` over the ASCII range: non-empty and all digits. -/
def pyIsDigit (l : List Char) : Bool := !l.isEmpty && l.all isDigitC

/-- One iteration of the `for line in file` loop of `parse_srt_file`. -/
def parseLine (st : PState) (rawLine : List Char) : Except PyErr PState :=
  let line := strip rawLine
  match st.state with
  | .NEW_SUBTITLE =>
    if line.length = 0 then .ok st
    else if !pyIsDigit line then .error .expectedNumber
    else .ok { st with number := some (digitsToNat line), state := .TIMESTAMPS }
  | .TIMESTAMPS =>
    match splitArrow line with
    | [p1, p2] => do
      let s ← Timestamp.from_str (strip p1)
      let e ← Timestamp.from_str (strip p2)
      .ok { st with start := some s, end_ := some e, state := .TEXT }
    | _ => .error .expectedTwoTimestamps
  | .TEXT =>
    if line.length = 0 then
      if st.text.length = 0 then .error .expectedText
      else
        match st.number, st.start, st.end_ with
        | some n, some s, some e =>
          .ok ⟨st.subtitles ++ [⟨n, s, e, st.text⟩], none, none, none, [], .NEW_SUBTITLE⟩
        | _, _, _ => .error .invalidState
    else .ok { st with text := st.text ++ [line] }

/-- The `for` loop of `parse_srt_file`; a raised error aborts the loop. -/
def parseLines : PState → List (List Char) → Except PyErr PState
  | st, [] => .ok st
  | st, l :: ls =>
    match parseLine st l with
    | .ok st' => parseLines st' ls
    | .error e => .error e

/-- The initial parser state. -/
def initPState : PState := ⟨[], none, none, none, [], .NEW_SUBTITLE⟩

/-- `parse_srt_file`: run the loop over all (already line-split) input, then
apply the end-of-input checks. -/
def parse_srt_file (lines : List (List Char)) : Except PyErr (List Subtitle) :=
  match parseLines initPState lines with
  | .error e => .error e
  | .ok st =>
    if st.state = .TIMESTAMPS then .error .endedMidSubtitle
    else if st.state = .TEXT then
      if st.text.length = 0 then .error .endedMidSubtitle
      else
        match st.number, st.start, st.end_ with
        | some n, some s, some e => .ok (st.subtitles ++ [⟨n, s, e, st.text⟩])
        | _, _, _ => .error .invalidState
    else .ok st.subtitles

/-- The loop body of `delay_subtitles`: the `try` block shifts start (clamping)
then end (not clamping); a `NegativeTimestampException` from either is caught
and the record skipped; any other error would propagate. -/
def delayLoop (millis : Int) : List Subtitle → List Subtitle → Except PyErr (List Subtitle)
  | rv, [] => .ok rv
  | rv, sub :: rest =>
    match sub.start.delayed_by millis true with
    | .error .negativeTimestamp => delayLoop millis rv rest
    | .error e => .error e
    | .ok s =>
      match sub.end_.delayed_by millis false with
      | .error .negativeTimestamp => delayLoop millis rv rest
      | .error e => .error e
      | .ok e => delayLoop millis (rv ++ [⟨rv.length + 1, s, e, sub.text⟩]) rest

/-- `delay_subtitles`. -/
def delay_subtitles (subtitles : List Subtitle) (millis : Int) : Except PyErr (List Subtitle) :=
  delayLoop millis [] subtitles

/-- Written from the spec's description of the Delay Transform: keep, in input
order, exactly the records whose end plus the offset is non-negative; shift the
end by the offset, clamp the shifted start at 0, copy the text, and number the
survivors densely starting after `n`. -/
def delayedSpec (d : Int) : Nat → List Subtitle → List Subtitle
  | _, [] => []
  | n, sub :: rest =>
    if 0 ≤ (sub.end_.millis : Int) + d then
      ⟨n + 1, ⟨(max ((sub.start.millis : Int) + d) 0).toNat⟩,
          ⟨((sub.end_.millis : Int) + d).toNat⟩, sub.text⟩ :: delayedSpec d (n + 1) rest
    else delayedSpec d n rest

lemma delayed_by_clamp (t : Timestamp) (d : Int) :
    t.delayed_by d true = .ok ⟨(max ((t.millis : Int) + d) 0).toNat⟩ := by
  simp [Timestamp.delayed_by]

lemma delayed_by_nonneg (t : Timestamp) (d : Int) (h : 0 ≤ (t.millis : Int) + d) (X : Bool) :
    t.delayed_by d X = .ok ⟨((t.millis : Int) + d).toNat⟩ := by
  have h1 : ((t.millis : Int) + d < 0) = False := by simp; omega
  have h2 : max ((t.millis : Int) + d) 0 = (t.millis : Int) + d := by omega
  simp [Timestamp.delayed_by, h1, h2]

lemma delayed_by_neg (t : Timestamp) (d : Int) (h : (t.millis : Int) + d < 0) :
    t.delayed_by d false = .error .negativeTimestamp := by
  simp [Timestamp.delayed_by, h]

lemma delayLoop_eq (d : Int) :
    ∀ (subs rv : List Subtitle), delayLoop d rv subs = .ok (rv ++ delayedSpec d rv.length subs)
  | [], rv => by simp [delayLoop, delayedSpec]
  | sub :: rest, rv => by
    by_cases hc : 0 ≤ (sub.end_.millis : Int) + d
    · simp only [delayLoop, delayed_by_clamp, delayed_by_nonneg sub.end_ d hc false]
      rw [delayLoop_eq d rest (rv ++ [_])]
      simp [delayedSpec, hc, List.append_assoc]
    · simp only [delayLoop, delayed_by_clamp, delayed_by_neg sub.end_ d (by omega)]
      rw [delayLoop_eq d rest rv]
      simp [delayedSpec, hc]

lemma delayedSpec_mem (d : Int) :
    ∀ (subs : List Subtitle) (n : Nat) (r : Subtitle), r ∈ delayedSpec d n subs → n < r.number
  | [], n, r => by simp [delayedSpec]
  | sub :: rest, n, r => by
    by_cases hc : 0 ≤ (sub.end_.millis : Int) + d
    · simp only [delayedSpec, if_pos hc, List.mem_cons]
      rintro (rfl | hmem)
      · simp
      · have := delayedSpec_mem d rest (n + 1) r hmem
        omega
    · simp only [delayedSpec, if_neg hc]
      intro hmem
      exact delayedSpec_mem d rest n r hmem

/-- C4: `delayed_by` adds the offset when the result is non-negative (for either
clamp flag), and on a negative result clamps to zero when `clamp_to_zero` is
true or raises `NegativeTimestampException` when it is false. -/
theorem delayed_by_spec (t : Timestamp) (d : Int) :
    (0 ≤ (t.millis : Int) + d → ∀ X : Bool, t.delayed_by d X = .ok ⟨((t.millis : Int) + d).toNat⟩) ∧
      ((t.millis : Int) + d < 0 →
        t.delayed_by d true = .ok ⟨0⟩ ∧ t.delayed_by d false = .error .negativeTimestamp) := by
  constructor
  · intro h X
    exact delayed_by_nonneg t d h X
  · intro h
    refine ⟨?_, delayed_by_neg t d h⟩
    rw [delayed_by_clamp]
    have : max ((t.millis : Int) + d) 0 = 0 := by omega
    rw [this]
    rfl

/-- Witness for C4 at concrete inputs. -/
theorem delayed_by_spec_witness :
    (Timestamp.delayed_by ⟨1500⟩ 500 true = .ok ⟨2000⟩) ∧
      (Timestamp.delayed_by ⟨500⟩ (-1000) true = .ok ⟨0⟩) ∧
      (Timestamp.delayed_by ⟨500⟩ (-1000) false = .error .negativeTimestamp) := by
  have h1 := (delayed_by_spec ⟨1500⟩ 500).1 (by decide) true
  have h2 := (delayed_by_spec ⟨500⟩ (-1000)).2 (by decide)
  rw [h1, h2.1, h2.2]
  refine ⟨by decide, rfl, rfl⟩

/-- C7: `delay_subtitles` never lets `NegativeTimestampException` (or any other
error) escape to its caller, and delaying a start timestamp with clamping never
raises at all. -/
theorem delay_subtitles_total (subs : List Subtitle) (d : Int) :
    (∃ out, delay_subtitles subs d = .ok out) ∧
      ∀ t : Timestamp, ∃ t', t.delayed_by d true = .ok t' := by
  refine ⟨⟨delayedSpec d 0 subs, ?_⟩, fun t => ⟨_, delayed_by_clamp t d⟩⟩
  rw [delay_subtitles, delayLoop_eq d subs []]
  rfl

/-- C2: the Delay Transform keeps exactly the records whose shifted end is
non-negative, in input order, shifting ends by the offset, clamping starts at
zero, copying text, and renumbering the survivors densely from 1; in particular
records 5, 9, 12 with ends 500, 2000, 5000 under offset -1000 yield exactly two
records numbered 1 and 2 with ends 1000 and 4000. -/
theorem delay_subtitles_spec :
    (∀ (subs : List Subtitle) (d : Int), delay_subtitles subs d = .ok (delayedSpec d 0 subs)) ∧
      delay_subtitles
          [⟨5, ⟨1500⟩, ⟨500⟩, [['a']]⟩, ⟨9, ⟨1800⟩, ⟨2000⟩, [['b']]⟩,
            ⟨12, ⟨4500⟩, ⟨5000⟩, [['c']]⟩] (-1000) =
        .ok [⟨1, ⟨800⟩, ⟨1000⟩, [['b']]⟩, ⟨2, ⟨3500⟩, ⟨4000⟩, [['c']]⟩] := by
  constructor
  · intro subs d
    rw [delay_subtitles, delayLoop_eq d subs []]
    rfl
  · decide

/-- C9 counterexample: `parse_srt_file` emits a record whose number is 0 when
the input block is numbered 0, so not every emitted record has number ≥ 1. -/
theorem parse_number_zero :
    ∃ out, parse_srt_file (["0", "00:00:00,000 --> 00:00:01,000", "hi"].map String.toList) =
        .ok out ∧ ∃ r ∈ out, ¬ 1 ≤ r.number := by
  refine ⟨[⟨0, ⟨0⟩, ⟨1000⟩, [['h', 'i']]⟩], by decide, ⟨0, ⟨0⟩, ⟨1000⟩, [['h', 'i']]⟩, ?_, by decide⟩
  simp

/-- C9 amended: every record emitted by `delay_subtitles` has number ≥ 1;
`parse_srt_file` by contrast trusts the number written in the input, which may
be 0. -/
theorem delay_numbers_positive (subs : List Subtitle) (d : Int) (out : List Subtitle)
    (h : delay_subtitles subs d = .ok out) : ∀ r ∈ out, 1 ≤ r.number := by
  intro r hr
  rw [delay_subtitles, delayLoop_eq d subs []] at h
  cases h
  simpa using delayedSpec_mem d subs 0 r hr

/-- Witness for C9's amended statement at a concrete input. -/
theorem delay_numbers_positive_witness :
    1 ≤ (⟨1, ⟨1000⟩, ⟨2000⟩, [['x']]⟩ : Subtitle).number :=
  delay_numbers_positive [⟨7, ⟨500⟩, ⟨1500⟩, [['x']]⟩] 500 [⟨1, ⟨1000⟩, ⟨2000⟩, [['x']]⟩]
    (by decide) _ (by simp)

/-- Written from the spec: the legal hour field, 1-2 digits with value 0-23. -/
def SpecHour (l : List Char) : Prop :=
  1 ≤ l.length ∧ l.length ≤ 2 ∧ (∀ c ∈ l, isDigitC c = true) ∧ digitsToNat l ≤ 23

/-- Written from the spec: a legal minute or second field, 1-2 digits with value 0-59. -/
def SpecMinSec (l : List Char) : Prop :=
  1 ≤ l.length ∧ l.length ≤ 2 ∧ (∀ c ∈ l, isDigitC c = true) ∧ digitsToNat l ≤ 59

/-- Written from the spec: the legal millisecond field, 1-3 digits. -/
def SpecMs (l : List Char) : Prop :=
  1 ≤ l.length ∧ l.length ≤ 3 ∧ ∀ c ∈ l, isDigitC c = true

/-- Written from the spec: a string fully matching
hour `:` minute `:` second `,` milliseconds with no extra characters. -/
def SpecMatch (s : List Char) : Prop :=
  ∃ hp mp sp msp, s = hp ++ ':' :: (mp ++ ':' :: (sp ++ ',' :: msp)) ∧
    SpecHour hp ∧ SpecMinSec mp ∧ SpecMinSec sp ∧ SpecMs msp

instance (l : List Char) : Decidable (SpecHour l) := by unfold SpecHour; infer_instance

instance (l : List Char) : Decidable (SpecMinSec l) := by unfold SpecMinSec; infer_instance

instance (l : List Char) : Decidable (SpecMs l) := by unfold SpecMs; infer_instance

lemma hourOK_iff (l : List Char) : hourOK l = true ↔ SpecHour l := by
  rcases l with _ | ⟨c1, _ | ⟨c2, _ | ⟨c3, rest⟩⟩⟩
  · simp [hourOK, SpecHour]
  · simp [hourOK, SpecHour, digitsToNat, isDigitC]
    omega
  · simp [hourOK, SpecHour, digitsToNat, isDigitC]
    omega
  · simp [hourOK, SpecHour]

lemma minsecOK_iff (l : List Char) : minsecOK l = true ↔ SpecMinSec l := by
  rcases l with _ | ⟨c1, _ | ⟨c2, _ | ⟨c3, rest⟩⟩⟩
  · simp [minsecOK, SpecMinSec]
  · simp [minsecOK, SpecMinSec, digitsToNat, isDigitC]
    omega
  · simp [minsecOK, SpecMinSec, digitsToNat, isDigitC]
    omega
  · simp [minsecOK, SpecMinSec]

lemma msOK_iff (l : List Char) : msOK l = true ↔ SpecMs l := by
  simp only [msOK, SpecMs, List.all_eq_true, Bool.and_eq_true, decide_eq_true_eq]
  exact and_assoc

lemma splitOnChar_ne_nil (sep : Char) : ∀ l, splitOnChar sep l ≠ []
  | [] => by simp [splitOnChar]
  | c :: cs => by
    by_cases hc : c = sep
    · simp [splitOnChar, hc]
    · simp only [splitOnChar, if_neg hc]
      cases h : splitOnChar sep cs with
      | nil => simp
      | cons t ts => simp

lemma splitOnChar_not_mem (sep : Char) : ∀ l, sep ∉ l → splitOnChar sep l = [l]
  | [], _ => rfl
  | c :: cs, h => by
    have hc : c ≠ sep := fun e => h (e ▸ List.mem_cons_self c cs)
    have hcs : sep ∉ cs := fun m => h (List.mem_cons_of_mem c m)
    simp only [splitOnChar, if_neg hc, splitOnChar_not_mem sep cs hcs]

lemma splitOnChar_append (sep : Char) : ∀ a r, sep ∉ a →
    splitOnChar sep (a ++ sep :: r) = a :: splitOnChar sep r
  | [], r, _ => by simp [splitOnChar]
  | c :: a', r, h => by
    have hc : c ≠ sep := fun e => h (e ▸ List.mem_cons_self c a')
    have ha : sep ∉ a' := fun m => h (List.mem_cons_of_mem c m)
    simp only [List.cons_append, splitOnChar, if_neg hc, List.append_eq]
    rw [splitOnChar_append sep a' r ha]

lemma joinOn_cons_head (sep c : Char) (t : List Char) (ts : List (List Char)) :
    joinOn sep ((c :: t) :: ts) = c :: joinOn sep (t :: ts) := by
  cases ts <;> simp [joinOn]

lemma joinOn_splitOnChar (sep : Char) : ∀ l, joinOn sep (splitOnChar sep l) = l
  | [] => rfl
  | c :: cs => by
    by_cases hc : c = sep
    · subst hc
      simp only [splitOnChar, if_pos rfl]
      cases h : splitOnChar c cs with
      | nil => exact absurd h (splitOnChar_ne_nil c cs)
      | cons t ts =>
        have ih := joinOn_splitOnChar c cs
        rw [h] at ih
        simp [joinOn, ih]
    · simp only [splitOnChar, if_neg hc]
      cases h : splitOnChar sep cs with
      | nil => exact absurd h (splitOnChar_ne_nil sep cs)
      | cons t ts =>
        have ih := joinOn_splitOnChar sep cs
        rw [h] at ih
        simp [joinOn_cons_head, ih]

lemma splitOnChar_parts (sep : Char) : ∀ l p, p ∈ splitOnChar sep l → sep ∉ p
  | [], p, hp => by
    simp [splitOnChar] at hp
    simp [hp]
  | c :: cs, p, hp => by
    by_cases hc : c = sep
    · rw [splitOnChar, if_pos hc] at hp
      rcases List.mem_cons.mp hp with rfl | hm
      · simp
      · exact splitOnChar_parts sep cs p hm
    · rw [splitOnChar, if_neg hc] at hp
      cases h : splitOnChar sep cs with
      | nil => exact absurd h (splitOnChar_ne_nil sep cs)
      | cons t ts =>
        rw [h] at hp
        rcases List.mem_cons.mp hp with rfl | hm
        · intro hmem
          rcases List.mem_cons.mp hmem with rfl | hm'
          · exact hc rfl
          · exact splitOnChar_parts sep cs t (h ▸ List.mem_cons_self t ts) hm'
        · exact splitOnChar_parts sep cs p (h ▸ List.mem_cons_of_mem t hm)

set_option maxRecDepth 8000

lemma digit_not_colon {l : List Char} (h : ∀ c ∈ l, isDigitC c = true) : ':' ∉ l :=
  fun hm => absurd (h _ hm) (by decide)

lemma digit_not_comma {l : List Char} (h : ∀ c ∈ l, isDigitC c = true) : ',' ∉ l :=
  fun hm => absurd (h _ hm) (by decide)

lemma from_str_intro (hp mp sp msp : List Char) (h1 : hourOK hp = true)
    (h2 : minsecOK mp = true) (h3 : minsecOK sp = true) (h4 : msOK msp = true) :
    Timestamp.from_str (hp ++ ':' :: (mp ++ ':' :: (sp ++ ',' :: msp))) =
      .ok ⟨digitsToNat msp + 1000 * digitsToNat sp + 60 * 1000 * digitsToNat mp
            + 60 * 60 * 1000 * digitsToNat hp⟩ := by
  have dh := ((hourOK_iff hp).mp h1).2.2.1
  have dm := ((minsecOK_iff mp).mp h2).2.2.1
  have ds := ((minsecOK_iff sp).mp h3).2.2.1
  have dms := ((msOK_iff msp).mp h4).2.2
  have hrest : ':' ∉ sp ++ ',' :: msp := by
    intro hm
    rcases List.mem_append.mp hm with hm' | hm'
    · exact digit_not_colon ds hm'
    · rcases List.mem_cons.mp hm' with he | hm''
      · exact absurd he.symm (by decide)
      · exact digit_not_colon dms hm''
  have hs1 := splitOnChar_append ':' hp (mp ++ ':' :: (sp ++ ',' :: msp)) (digit_not_colon dh)
  have hs2 := splitOnChar_append ':' mp (sp ++ ',' :: msp) (digit_not_colon dm)
  have hs3 := splitOnChar_not_mem ':' (sp ++ ',' :: msp) hrest
  have hs4 := splitOnChar_append ',' sp msp (digit_not_comma ds)
  have hs5 := splitOnChar_not_mem ',' msp (digit_not_comma dms)
  simp only [Timestamp.from_str, hs1, hs2, hs3, hs4, hs5, h1, h2, h3, h4, Bool.and_self,
    if_true]

lemma from_str_elim {s : List Char} {t : Timestamp} (h : Timestamp.from_str s = .ok t) :
    ∃ hp mp sp msp, s = hp ++ ':' :: (mp ++ ':' :: (sp ++ ',' :: msp)) ∧
      hourOK hp = true ∧ minsecOK mp = true ∧ minsecOK sp = true ∧ msOK msp = true ∧
      t = ⟨digitsToNat msp + 1000 * digitsToNat sp + 60 * 1000 * digitsToNat mp
            + 60 * 60 * 1000 * digitsToNat hp⟩ := by
  unfold Timestamp.from_str at h
  cases h3 : splitOnChar ':' s with
  | nil => simp [h3] at h
  | cons hp l1 =>
  cases l1 with
  | nil => simp [h3] at h
  | cons mp l2 =>
  cases l2 with
  | nil => simp [h3] at h
  | cons rest l3 =>
  cases l3 with
  | cons x xs => simp [h3] at h
  | nil =>
  simp only [h3] at h
  cases h4 : splitOnChar ',' rest with
  | nil => simp [h4] at h
  | cons sp l4 =>
  cases l4 with
  | nil => simp [h4] at h
  | cons msp l5 =>
  cases l5 with
  | cons y ys => simp [h4] at h
  | nil =>
  simp only [h4] at h
  have hcond : (hourOK hp && minsecOK mp && minsecOK sp && msOK msp) = true := by
    by_contra hc
    rw [Bool.not_eq_true] at hc
    simp [hc] at h
  rw [hcond] at h
  have h' := Except.ok.inj (by rwa [if_pos rfl] at h :
    Except.ok (⟨digitsToNat msp + 1000 * digitsToNat sp + 60 * 1000 * digitsToNat mp
      + 60 * 60 * 1000 * digitsToNat hp⟩ : Timestamp) = Except.ok t)
  have hsj := joinOn_splitOnChar ':' s
  rw [h3] at hsj
  have hrj := joinOn_splitOnChar ',' rest
  rw [h4] at hrj
  simp only [joinOn] at hsj hrj
  simp only [Bool.and_eq_true] at hcond
  exact ⟨hp, mp, sp, msp, by rw [← hsj, ← hrj], hcond.1.1.1, hcond.1.1.2, hcond.1.2, hcond.2,
    h'.symm⟩

lemma ball_hour_pad : ∀ h, h < 24 → hourOK (zfill 2 (natRepr h)) = true := by decide

lemma ball_minsec_pad : ∀ m, m < 60 → minsecOK (zfill 2 (natRepr m)) = true := by decide

lemma ball_ms_pad : ∀ k, k < 1000 → msOK (zfill 3 (natRepr k)) = true := by decide

lemma ball_digits2 : ∀ k, k < 100 → digitsToNat (zfill 2 (natRepr k)) = k := by decide

lemma ball_digits3 : ∀ k, k < 1000 → digitsToNat (zfill 3 (natRepr k)) = k := by decide

lemma ball_pad2 : ∀ k, k < 100 →
    zfill 2 (natRepr k) = [digitChar (k / 10), digitChar (k % 10)] := by decide

lemma ball_pad3 : ∀ k, k < 1000 →
    zfill 3 (natRepr k) = [digitChar (k / 100), digitChar (k / 10 % 10), digitChar (k % 10)] := by
  decide

/-- Written from the spec: the canonical fully zero-padded text `HH:MM:SS,mmm`
with component values `h`, `m`, `s`, `ms` (each rendered in decimal, left-padded
with zeros to width 2, 2, 2 and 3 respectively). -/
def canonical (h m s ms : Nat) : List Char :=
  zfill 2 (natRepr h) ++
    ':' :: zfill 2 (natRepr m) ++
    ':' :: zfill 2 (natRepr s) ++
    ',' :: zfill 3 (natRepr ms)

lemma toStr_eq_canonical (n : Nat) :
    Timestamp.toStr ⟨n⟩ = canonical (n / (60 * 60 * 1000)) (n % (60 * 60 * 1000) / (60 * 1000))
      (n % (60 * 60 * 1000) % (60 * 1000) / 1000) (n % (60 * 60 * 1000) % (60 * 1000) % 1000) :=
  rfl

lemma from_str_canonical (h m s ms : Nat) (hh : h < 24) (hm : m < 60) (hs : s < 60)
    (hms : ms < 1000) :
    Timestamp.from_str (canonical h m s ms) =
      .ok ⟨ms + 1000 * s + 60 * 1000 * m + 60 * 60 * 1000 * h⟩ := by
  have e : canonical h m s ms =
      zfill 2 (natRepr h) ++ ':' :: (zfill 2 (natRepr m) ++
        ':' :: (zfill 2 (natRepr s) ++ ',' :: zfill 3 (natRepr ms))) := by
    simp [canonical, List.append_assoc]
  rw [e, from_str_intro _ _ _ _ (ball_hour_pad h hh) (ball_minsec_pad m hm)
    (ball_minsec_pad s hs) (ball_ms_pad ms hms), ball_digits3 ms hms,
    ball_digits2 s (by omega), ball_digits2 m (by omega), ball_digits2 h (by omega)]

lemma from_str_error_kind (s : List Char) :
    (∃ t, Timestamp.from_str s = .ok t) ∨ Timestamp.from_str s = .error .notValidTimestamp := by
  unfold Timestamp.from_str
  cases splitOnChar ':' s with
  | nil => right; rfl
  | cons hp l1 =>
  cases l1 with
  | nil => right; rfl
  | cons mp l2 =>
  cases l2 with
  | nil => right; rfl
  | cons rest l3 =>
  cases l3 with
  | cons x xs => right; rfl
  | nil =>
  dsimp only
  cases splitOnChar ',' rest with
  | nil => right; rfl
  | cons sp l4 =>
  cases l4 with
  | nil => right; rfl
  | cons msp l5 =>
  cases l5 with
  | cons y ys => right; rfl
  | nil =>
  dsimp only
  by_cases hcond : (hourOK hp && minsecOK mp && minsecOK sp && msOK msp) = true
  · left
    exact ⟨_, by rw [hcond]; exact if_pos rfl⟩
  · right
    rw [Bool.not_eq_true] at hcond
    rw [hcond]
    simp

/-- C5: `Timestamp.from_str` succeeds exactly on strings that decompose as
hour, `:`, minute, `:`, second, `,`, milliseconds with 1-2 digit hour valued
0-23, 1-2 digit minute and second valued 0-59, and 1-3 millisecond digits, with
no extra characters; on success the value is
ms + 1000*s + 60000*m + 3600000*h, and on any deviation it raises its
ValueError. -/
theorem from_str_spec (s : List Char) :
    ((∃ t, Timestamp.from_str s = .ok t) ↔ SpecMatch s) ∧
      (¬ SpecMatch s → Timestamp.from_str s = .error .notValidTimestamp) ∧
      ∀ hp mp sp msp, s = hp ++ ':' :: (mp ++ ':' :: (sp ++ ',' :: msp)) →
        SpecHour hp → SpecMinSec mp → SpecMinSec sp → SpecMs msp →
        Timestamp.from_str s = .ok ⟨digitsToNat msp + 1000 * digitsToNat sp
          + 60 * 1000 * digitsToNat mp + 60 * 60 * 1000 * digitsToNat hp⟩ := by
  have third : ∀ hp mp sp msp, s = hp ++ ':' :: (mp ++ ':' :: (sp ++ ',' :: msp)) →
      SpecHour hp → SpecMinSec mp → SpecMinSec sp → SpecMs msp →
      Timestamp.from_str s = .ok ⟨digitsToNat msp + 1000 * digitsToNat sp
        + 60 * 1000 * digitsToNat mp + 60 * 60 * 1000 * digitsToNat hp⟩ := by
    intro hp mp sp msp he h1 h2 h3 h4
    rw [he]
    exact from_str_intro hp mp sp msp ((hourOK_iff hp).mpr h1) ((minsecOK_iff mp).mpr h2)
      ((minsecOK_iff sp).mpr h3) ((msOK_iff msp).mpr h4)
  have fwd : (∃ t, Timestamp.from_str s = .ok t) → SpecMatch s := by
    rintro ⟨t, ht⟩
    obtain ⟨hp, mp, sp, msp, he, k1, k2, k3, k4, _⟩ := from_str_elim ht
    exact ⟨hp, mp, sp, msp, he, (hourOK_iff hp).mp k1, (minsecOK_iff mp).mp k2,
      (minsecOK_iff sp).mp k3, (msOK_iff msp).mp k4⟩
  refine ⟨⟨fwd, ?_⟩, ?_, third⟩
  · rintro ⟨hp, mp, sp, msp, he, h1, h2, h3, h4⟩
    exact ⟨_, third hp mp sp msp he h1 h2 h3 h4⟩
  · intro hns
    rcases from_str_error_kind s with ⟨t, ht⟩ | he
    · exact absurd (fwd ⟨t, ht⟩) hns
    · exact he

/-- Witness for C5's success clause at a concrete decomposition. -/
theorem from_str_spec_witness :
    Timestamp.from_str ("1:2:3,4".toList) =
      .ok ⟨digitsToNat ['4'] + 1000 * digitsToNat ['3'] + 60 * 1000 * digitsToNat ['2']
            + 60 * 60 * 1000 * digitsToNat ['1']⟩ :=
  (from_str_spec ("1:2:3,4".toList)).2.2 ['1'] ['2'] ['3'] ['4'] (by decide) (by decide)
    (by decide) (by decide) (by decide)

/-- C1 counterexample: at exactly 24 hours the record formats as
"24:00:00,000", which `from_str` rejects, so the format-then-parse round-trip
fails for a Timestamp with non-negative millis ≥ 24h. -/
theorem roundtrip_fails_at_24h :
    Timestamp.from_str (Timestamp.toStr ⟨86400000⟩) ≠ .ok ⟨86400000⟩ := by decide

/-- C1 amended: parsing the formatted text returns the original Timestamp for
every millis value below 24 hours (86400000); at or above 24 hours the
formatted hour field exceeds 23 and parsing fails instead. -/
theorem from_str_toStr_roundtrip (n : Nat) (h : n < 86400000) :
    Timestamp.from_str (Timestamp.toStr ⟨n⟩) = .ok ⟨n⟩ := by
  rw [toStr_eq_canonical,
    from_str_canonical _ _ _ _ (by omega) (by omega) (by omega) (by omega)]
  simp only [Except.ok.injEq, Timestamp.mk.injEq]
  omega

/-- Witness for C1's amended round-trip at a concrete value. -/
theorem from_str_toStr_roundtrip_witness :
    Timestamp.from_str (Timestamp.toStr ⟨3723004⟩) = .ok ⟨3723004⟩ :=
  from_str_toStr_roundtrip 3723004 (by omega)

/-- C8: for every canonical fully zero-padded timestamp text (the explicit
12-character form HH:MM:SS,mmm with hour 00-23, minute and second 00-59,
milliseconds 000-999), formatting the parse returns the text exactly. -/
theorem format_parse_canonical (h m s ms : Nat) (hh : h < 24) (hm : m < 60) (hs : s < 60)
    (hms : ms < 1000) :
    (∃ t, Timestamp.from_str (canonical h m s ms) = .ok t ∧
        Timestamp.toStr t = canonical h m s ms) ∧
      canonical h m s ms = [digitChar (h / 10), digitChar (h % 10), ':',
        digitChar (m / 10), digitChar (m % 10), ':', digitChar (s / 10), digitChar (s % 10),
        ',', digitChar (ms / 100), digitChar (ms / 10 % 10), digitChar (ms % 10)] := by
  constructor
  · refine ⟨_, from_str_canonical h m s ms hh hm hs hms, ?_⟩
    rw [toStr_eq_canonical]
    have e1 : (ms + 1000 * s + 60 * 1000 * m + 60 * 60 * 1000 * h) / (60 * 60 * 1000) = h := by
      omega
    have e2 : (ms + 1000 * s + 60 * 1000 * m + 60 * 60 * 1000 * h) % (60 * 60 * 1000)
        / (60 * 1000) = m := by omega
    have e3 : (ms + 1000 * s + 60 * 1000 * m + 60 * 60 * 1000 * h) % (60 * 60 * 1000)
        % (60 * 1000) / 1000 = s := by omega
    have e4 : (ms + 1000 * s + 60 * 1000 * m + 60 * 60 * 1000 * h) % (60 * 60 * 1000)
        % (60 * 1000) % 1000 = ms := by omega
    rw [e1, e2, e3, e4]
  · rw [canonical, ball_pad2 h (by omega), ball_pad2 m (by omega), ball_pad2 s (by omega),
      ball_pad3 ms hms]
    simp

/-- Witness for C8 at a concrete canonical string. -/
theorem format_parse_canonical_witness :
    (∃ t, Timestamp.from_str (canonical 1 2 3 4) = .ok t ∧
        Timestamp.toStr t = canonical 1 2 3 4) ∧
      canonical 1 2 3 4 = [digitChar 0, digitChar 1, ':', digitChar 0, digitChar 2, ':',
        digitChar 0, digitChar 3, ',', digitChar 0, digitChar 0, digitChar 4] :=
  format_parse_canonical 1 2 3 4 (by omega) (by omega) (by omega) (by omega)

lemma digitsToNat_le_999 {l : List Char} (h : msOK l = true) : digitsToNat l ≤ 999 := by
  obtain ⟨h1, h2, h3⟩ := (msOK_iff l).mp h
  rcases l with _ | ⟨c1, _ | ⟨c2, _ | ⟨c3, _ | ⟨c4, r⟩⟩⟩⟩
  · simp at h1
  · have d1 := h3 c1 (by simp)
    simp [isDigitC] at d1
    simp only [digitsToNat, List.foldl]
    omega
  · have d1 := h3 c1 (by simp)
    have d2 := h3 c2 (by simp)
    simp [isDigitC] at d1 d2
    simp only [digitsToNat, List.foldl]
    omega
  · have d1 := h3 c1 (by simp)
    have d2 := h3 c2 (by simp)
    have d3 := h3 c3 (by simp)
    simp [isDigitC] at d1 d2 d3
    simp only [digitsToNat, List.foldl]
    omega
  · simp at h2

lemma canonical_length (a b c d : Nat) (ha : a < 100) (hb : b < 100) (hc : c < 100)
    (hd : d < 1000) : (canonical a b c d).length = 12 := by
  unfold canonical
  rw [ball_pad2 a ha, ball_pad2 b hb, ball_pad2 c hc, ball_pad3 d hd]
  simp

/-- C10: every Timestamp produced by `from_str` has millis at most 86399999
(strictly below 24 hours) and formats back to a 12-character text with a
2-digit hour field, while `delayed_by` with a large positive offset can produce
a Timestamp at or above 24 hours, which `from_str` can never yield. -/
theorem from_str_below_24h :
    (∀ (s : List Char) (t : Timestamp), Timestamp.from_str s = .ok t →
        t.millis ≤ 86399999 ∧ (Timestamp.toStr t).length = 12) ∧
      ∃ (t : Timestamp) (d : Int) (t' : Timestamp),
        Timestamp.delayed_by t d false = .ok t' ∧ 86400000 ≤ t'.millis := by
  constructor
  · intro s t h
    obtain ⟨hp, mp, sp, msp, _, k1, k2, k3, k4, ht⟩ := from_str_elim h
    have b1 := ((hourOK_iff hp).mp k1).2.2.2
    have b2 := ((minsecOK_iff mp).mp k2).2.2.2
    have b3 := ((minsecOK_iff sp).mp k3).2.2.2
    have b4 := digitsToNat_le_999 k4
    have hmillis : t.millis = digitsToNat msp + 1000 * digitsToNat sp
        + 60 * 1000 * digitsToNat mp + 60 * 60 * 1000 * digitsToNat hp := by rw [ht]
    refine ⟨by omega, ?_⟩
    obtain ⟨mm⟩ := t
    simp only [Timestamp.mk.injEq] at ht
    rw [toStr_eq_canonical]
    have hb : mm ≤ 86399999 := by omega
    exact canonical_length _ _ _ _ (by omega) (by omega) (by omega) (by omega)
  · exact ⟨⟨0⟩, 86400000, ⟨86400000⟩, by decide, by decide⟩

/-- Witness for C10's first clause at a concrete parse. -/
theorem from_str_below_24h_witness :
    (⟨86399999⟩ : Timestamp).millis ≤ 86399999 ∧ (Timestamp.toStr ⟨86399999⟩).length = 12 :=
  from_str_below_24h.1 ("23:59:59,999".toList) ⟨86399999⟩ (by decide)

/-- Test that an Except holds a value (the parse attempt succeeded). -/
def isOkB : Except PyErr Timestamp → Bool
  | .ok _ => true
  | .error _ => false

/-- Written from the spec: a well-formed timestamp line splits on the `-->`
separator into exactly two parts, each a valid timestamp after trimming. -/
def tsLineOK (l : List Char) : Bool :=
  match splitArrow (strip l) with
  | [p1, p2] => isOkB (Timestamp.from_str (strip p1)) && isOkB (Timestamp.from_str (strip p2))
  | _ => false

/-- The three lines of an SRT block: number line, timestamp line, text lines. -/
structure Block where
  numLine : List Char
  tsLine : List Char
  textLines : List (List Char)

/-- Written from the spec: a well-formed block has a digits-only (non-blank)
number line, a timestamp line with two valid timestamps separated by `-->`,
and one or more non-blank text lines. -/
def WFBlock (b : Block) : Bool :=
  !(strip b.numLine).isEmpty && (strip b.numLine).all isDigitC && tsLineOK b.tsLine &&
    !b.textLines.isEmpty && b.textLines.all (fun t => !(strip t).isEmpty)

/-- The two timestamps carried by a well-formed timestamp line. -/
def tsOf (l : List Char) : Timestamp × Timestamp :=
  match splitArrow (strip l) with
  | [p1, p2] =>
    match Timestamp.from_str (strip p1), Timestamp.from_str (strip p2) with
    | .ok t1, .ok t2 => (t1, t2)
    | _, _ => (⟨0⟩, ⟨0⟩)
  | _ => (⟨0⟩, ⟨0⟩)

/-- The lines of a block, in file order. -/
def blockLines (b : Block) : List (List Char) := b.numLine :: b.tsLine :: b.textLines

/-- The Subtitle record a well-formed block describes: its number, its two
timestamps, and its trimmed text lines in order. -/
def blockRecord (b : Block) : Subtitle :=
  ⟨digitsToNat (strip b.numLine), (tsOf b.tsLine).1, (tsOf b.tsLine).2, b.textLines.map strip⟩

/-- A document of blocks, each block followed by a single blank separator line
(so the last line of the document is a trailing blank). -/
def docBody : List Block → List (List Char)
  | [] => []
  | b :: bs => (blockLines b ++ [[]]) ++ docBody bs

lemma docBody_append : ∀ xs ys : List Block, docBody (xs ++ ys) = docBody xs ++ docBody ys
  | [], ys => rfl
  | x :: xs, ys => by
    simp only [List.cons_append, docBody, List.append_eq, docBody_append xs ys,
      List.append_assoc]

lemma strip_nil : strip ([] : List Char) = [] := rfl

lemma WFBlock_parts {b : Block} (h : WFBlock b = true) :
    strip b.numLine ≠ [] ∧ (strip b.numLine).all isDigitC = true ∧ tsLineOK b.tsLine = true ∧
      b.textLines ≠ [] ∧ ∀ t ∈ b.textLines, strip t ≠ [] := by
  unfold WFBlock at h
  simp only [Bool.and_eq_true] at h
  obtain ⟨⟨⟨⟨e1, e2⟩, e3⟩, e4⟩, e5⟩ := h
  refine ⟨?_, e2, e3, ?_, ?_⟩
  · simpa using e1
  · simpa using e4
  · intro t ht
    have := List.all_eq_true.mp e5 t ht
    simpa using this

lemma parseLines_append : ∀ (A : List (List Char)) (st : PState) (B : List (List Char)),
    parseLines st (A ++ B) = Except.bind (parseLines st A) fun st' => parseLines st' B
  | [], st, B => by simp [parseLines, Except.bind]
  | l :: ls, st, B => by
    cases h : parseLine st l with
    | ok st' =>
      simp only [List.cons_append, parseLines, h]
      exact parseLines_append ls st' B
    | error e => simp only [List.cons_append, parseLines, h, Except.bind]

lemma parse_text_lines : ∀ (tls : List (List Char)), (∀ t ∈ tls, strip t ≠ []) →
    ∀ (subs : List Subtitle) (n : Option Nat) (a b : Option Timestamp)
      (txt rest : List (List Char)),
      parseLines ⟨subs, n, a, b, txt, .TEXT⟩ (tls ++ rest) =
        parseLines ⟨subs, n, a, b, txt ++ tls.map strip, .TEXT⟩ rest
  | [], _, subs, n, a, b, txt, rest => by simp
  | t :: ts, h, subs, n, a, b, txt, rest => by
    have ht : strip t ≠ [] := h t (by simp)
    have hts : ∀ x ∈ ts, strip x ≠ [] := fun x hx => h x (by simp [hx])
    have hlen : ¬ (strip t).length = 0 := by
      simpa [List.length_eq_zero] using ht
    simp only [List.cons_append, parseLines, parseLine, if_neg hlen, List.append_eq]
    rw [parse_text_lines ts hts subs n a b (txt ++ [strip t]) rest]
    simp [List.append_assoc]

lemma parse_blank (subs : List Subtitle) (n : Nat) (a b : Timestamp)
    (txt : List (List Char)) (hne : ¬ txt.length = 0) (rest : List (List Char)) :
    parseLines ⟨subs, some n, some a, some b, txt, .TEXT⟩ ([] :: rest) =
      parseLines ⟨subs ++ [⟨n, a, b, txt⟩], none, none, none, [], .NEW_SUBTITLE⟩ rest := by
  simp [parseLines, parseLine, strip_nil, hne]

lemma parseLine_num (st : PState) (h0 : st.state = .NEW_SUBTITLE) (l : List Char)
    (h1 : strip l ≠ []) (h2 : (strip l).all isDigitC = true) :
    parseLine st l = .ok ⟨st.subtitles, some (digitsToNat (strip l)), st.start, st.end_,
      st.text, .TIMESTAMPS⟩ := by
  have hlen : ¬ (strip l).length = 0 := by simpa [List.length_eq_zero] using h1
  have hpd : pyIsDigit (strip l) = true := by
    simp [pyIsDigit, h2]
    simpa using h1
  simp [parseLine, h0, hlen, hpd]

lemma parse_block (b : Block) (hwf : WFBlock b = true) (subs : List Subtitle)
    (rest : List (List Char)) :
    parseLines ⟨subs, none, none, none, [], .NEW_SUBTITLE⟩ (blockLines b ++ rest) =
      parseLines ⟨subs, some (digitsToNat (strip b.numLine)), some (tsOf b.tsLine).1,
        some (tsOf b.tsLine).2, b.textLines.map strip, .TEXT⟩ rest := by
  obtain ⟨e1, e2, e3, e4, e5⟩ := WFBlock_parts hwf
  unfold tsLineOK at e3
  cases hsp : splitArrow (strip b.tsLine) with
  | nil => simp [hsp] at e3
  | cons p1 l1 =>
  cases l1 with
  | nil => simp [hsp] at e3
  | cons p2 l2 =>
  cases l2 with
  | cons q qs => simp [hsp] at e3
  | nil =>
  simp only [hsp, Bool.and_eq_true] at e3
  obtain ⟨f1, f2⟩ := e3
  cases hf1 : Timestamp.from_str (strip p1) with
  | error e => rw [hf1] at f1; simp [isOkB] at f1
  | ok t1 =>
  cases hf2 : Timestamp.from_str (strip p2) with
  | error e => rw [hf2] at f2; simp [isOkB] at f2
  | ok t2 =>
  have htsOf : tsOf b.tsLine = (t1, t2) := by
    simp [tsOf, hsp, hf1, hf2]
  have step1 : parseLine ⟨subs, none, none, none, [], .NEW_SUBTITLE⟩ b.numLine =
      .ok ⟨subs, some (digitsToNat (strip b.numLine)), none, none, [], .TIMESTAMPS⟩ :=
    parseLine_num _ rfl b.numLine e1 e2
  have step2 : parseLine ⟨subs, some (digitsToNat (strip b.numLine)), none, none, [],
      .TIMESTAMPS⟩ b.tsLine =
      .ok ⟨subs, some (digitsToNat (strip b.numLine)), some t1, some t2, [], .TEXT⟩ := by
    simp only [parseLine, hsp, hf1, hf2]
    rfl
  simp only [blockLines, List.cons_append, parseLines, step1, step2, List.append_eq]
  rw [parse_text_lines b.textLines e5 subs _ _ _ [] rest]
  rw [htsOf]
  simp

lemma parse_doc : ∀ (bs : List Block), (∀ b ∈ bs, WFBlock b = true) →
    ∀ subs : List Subtitle,
      parseLines ⟨subs, none, none, none, [], .NEW_SUBTITLE⟩ (docBody bs) =
        .ok ⟨subs ++ bs.map blockRecord, none, none, none, [], .NEW_SUBTITLE⟩
  | [], _, subs => by simp [docBody, parseLines]
  | b :: bs, h, subs => by
    have hb := h b (by simp)
    have hbs : ∀ x ∈ bs, WFBlock x = true := fun x hx => h x (by simp [hx])
    obtain ⟨_, _, _, hne, _⟩ := WFBlock_parts hb
    have hlen : ¬ (b.textLines.map strip).length = 0 := by
      simpa [List.length_eq_zero] using hne
    simp only [docBody, List.append_assoc, List.singleton_append]
    rw [parse_block b hb subs ([] :: docBody bs)]
    rw [parse_blank subs _ _ _ _ hlen (docBody bs), parse_doc bs hbs _]
    simp [blockRecord, List.append_assoc]

/-- C3: a document of N well-formed blocks (digits-only number line, a line
with two valid timestamps separated by the arrow, one or more non-blank text
lines), separated by single blank lines, with or without the trailing blank
line, parses to exactly the N corresponding records in input order, each
carrying the block's number, both timestamps, and its trimmed text lines in
order. -/
theorem parse_srt_file_wf (bs : List Block) (h : ∀ b ∈ bs, WFBlock b = true) :
    parse_srt_file (docBody bs) = .ok (bs.map blockRecord) ∧
      parse_srt_file ((docBody bs).dropLast) = .ok (bs.map blockRecord) := by
  constructor
  · simp only [parse_srt_file, initPState]
    rw [parse_doc bs h []]
    simp
  · rcases List.eq_nil_or_concat bs with rfl | ⟨bs', b, rfl⟩
    · simp [docBody, parse_srt_file, parseLines, initPState]
    · rw [List.concat_eq_append] at h ⊢
      have hwfb : WFBlock b = true := h b (by simp)
      have hwf' : ∀ x ∈ bs', WFBlock x = true := fun x hx => h x (by simp [hx])
      obtain ⟨_, _, _, hne, _⟩ := WFBlock_parts hwfb
      have hlen : ¬ (b.textLines.map strip).length = 0 := by
        simpa [List.length_eq_zero] using hne
      have hdoc : docBody (bs' ++ [b]) = (docBody bs' ++ blockLines b) ++ [[]] := by
        rw [docBody_append]
        simp [docBody, List.append_assoc]
      have hdrop : (docBody (bs' ++ [b])).dropLast = docBody bs' ++ blockLines b := by
        rw [hdoc, List.dropLast_concat]
      rw [hdrop]
      simp only [parse_srt_file, initPState]
      rw [parseLines_append, parse_doc bs' hwf' []]
      simp only [Except.bind]
      rw [show blockLines b = blockLines b ++ [] by simp]
      rw [parse_block b hwfb _ []]
      simp only [parseLines]
      simp [hlen, blockRecord, hne]

/-- Witness for C3 at a concrete two-block document whose second record's text
spans two non-blank lines. -/
theorem parse_srt_file_wf_witness :
    parse_srt_file (docBody [⟨"1".toList, "00:00:01,000 --> 00:00:02,000".toList,
        ["Hello".toList]⟩, ⟨"2".toList, "00:00:05,000 --> 00:00:06,000".toList,
        ["World".toList, "Again".toList]⟩]) =
      .ok ([⟨"1".toList, "00:00:01,000 --> 00:00:02,000".toList, ["Hello".toList]⟩,
          ⟨"2".toList, "00:00:05,000 --> 00:00:06,000".toList,
            ["World".toList, "Again".toList]⟩].map blockRecord) :=
  (parse_srt_file_wf _ (by decide)).1

/-- C6: `parse_srt_file` fails (returning no records) on a number line with a
non-digit character, on a timestamp line that does not split on the arrow into
exactly two parts, on an out-of-range timestamp component (minute 60), on a
block with no text line before the next blank line, on a block with no text
line before the end of input, and on input that ends while the timestamp line
is still expected. -/
theorem parse_srt_file_rejects :
    (∀ (l : List Char) (rest : List (List Char)), strip l ≠ [] →
        (strip l).all isDigitC = false → parse_srt_file (l :: rest) = .error .expectedNumber) ∧
      (∀ (numl tsl : List Char) (rest : List (List Char)), strip numl ≠ [] →
        (strip numl).all isDigitC = true → (splitArrow (strip tsl)).length ≠ 2 →
        parse_srt_file (numl :: tsl :: rest) = .error .expectedTwoTimestamps) ∧
      parse_srt_file (["1", "00:60:01,000 --> 00:00:02,000"].map String.toList) =
        .error .notValidTimestamp ∧
      (∀ numl tsl bl : List Char, strip numl ≠ [] → (strip numl).all isDigitC = true →
        tsLineOK tsl = true → strip bl = [] →
        parse_srt_file [numl, tsl, bl] = .error .expectedText) ∧
      (∀ numl tsl : List Char, strip numl ≠ [] → (strip numl).all isDigitC = true →
        tsLineOK tsl = true →
        parse_srt_file [numl, tsl] = .error .endedMidSubtitle) ∧
      ∀ numl : List Char, strip numl ≠ [] → (strip numl).all isDigitC = true →
        parse_srt_file [numl] = .error .endedMidSubtitle := by
  refine ⟨?_, ?_, by decide, ?_, ?_, ?_⟩
  · intro l rest h1 h2
    have hlen : ¬ (strip l).length = 0 := by simpa [List.length_eq_zero] using h1
    have hpd : pyIsDigit (strip l) = false := by simp [pyIsDigit, h2]
    have step1 : parseLine initPState l = .error .expectedNumber := by
      simp [parseLine, initPState, hlen, hpd]
    simp only [parse_srt_file, parseLines, step1]
  · intro numl tsl rest h1 h2 h3
    have step1 := parseLine_num ⟨[], none, none, none, [], .NEW_SUBTITLE⟩ rfl numl h1 h2
    have step2 : parseLine ⟨[], some (digitsToNat (strip numl)), none, none, [],
        .TIMESTAMPS⟩ tsl = .error .expectedTwoTimestamps := by
      rcases hsp : splitArrow (strip tsl) with _ | ⟨p1, _ | ⟨p2, _ | ⟨p3, ps⟩⟩⟩
      · simp [parseLine, hsp]
      · simp [parseLine, hsp]
      · simp [hsp] at h3
      · simp [parseLine, hsp]
    simp only [parse_srt_file, initPState, parseLines, step1, step2]
  · intro numl tsl bl h1 h2 h3 h4
    have step1 := parseLine_num ⟨[], none, none, none, [], .NEW_SUBTITLE⟩ rfl numl h1 h2
    unfold tsLineOK at h3
    cases hsp : splitArrow (strip tsl) with
    | nil => simp [hsp] at h3
    | cons p1 l1 =>
    cases l1 with
    | nil => simp [hsp] at h3
    | cons p2 l2 =>
    cases l2 with
    | cons q qs => simp [hsp] at h3
    | nil =>
    simp only [hsp, Bool.and_eq_true] at h3
    obtain ⟨f1, f2⟩ := h3
    cases hf1 : Timestamp.from_str (strip p1) with
    | error e => rw [hf1] at f1; simp [isOkB] at f1
    | ok t1 =>
    cases hf2 : Timestamp.from_str (strip p2) with
    | error e => rw [hf2] at f2; simp [isOkB] at f2
    | ok t2 =>
    have step2 : parseLine ⟨[], some (digitsToNat (strip numl)), none, none, [],
        .TIMESTAMPS⟩ tsl =
        .ok ⟨[], some (digitsToNat (strip numl)), some t1, some t2, [], .TEXT⟩ := by
      simp only [parseLine, hsp, hf1, hf2]
      rfl
    have step3 : parseLine ⟨[], some (digitsToNat (strip numl)), some t1, some t2, [],
        .TEXT⟩ bl = .error .expectedText := by
      simp [parseLine, h4]
    simp only [parse_srt_file, initPState, parseLines, step1, step2, step3]
  · intro numl tsl h1 h2 h3
    have step1 := parseLine_num ⟨[], none, none, none, [], .NEW_SUBTITLE⟩ rfl numl h1 h2
    unfold tsLineOK at h3
    cases hsp : splitArrow (strip tsl) with
    | nil => simp [hsp] at h3
    | cons p1 l1 =>
    cases l1 with
    | nil => simp [hsp] at h3
    | cons p2 l2 =>
    cases l2 with
    | cons q qs => simp [hsp] at h3
    | nil =>
    simp only [hsp, Bool.and_eq_true] at h3
    obtain ⟨f1, f2⟩ := h3
    cases hf1 : Timestamp.from_str (strip p1) with
    | error e => rw [hf1] at f1; simp [isOkB] at f1
    | ok t1 =>
    cases hf2 : Timestamp.from_str (strip p2) with
    | error e => rw [hf2] at f2; simp [isOkB] at f2
    | ok t2 =>
    have step2 : parseLine ⟨[], some (digitsToNat (strip numl)), none, none, [],
        .TIMESTAMPS⟩ tsl =
        .ok ⟨[], some (digitsToNat (strip numl)), some t1, some t2, [], .TEXT⟩ := by
      simp only [parseLine, hsp, hf1, hf2]
      rfl
    simp only [parse_srt_file, initPState, parseLines, step1, step2]
    rfl
  · intro numl h1 h2
    have step1 := parseLine_num ⟨[], none, none, none, [], .NEW_SUBTITLE⟩ rfl numl h1 h2
    simp only [parse_srt_file, initPState, parseLines, step1]
    rfl

/-- Witness for C6's universally quantified clauses at concrete inputs. -/
theorem parse_srt_file_rejects_witness :
    parse_srt_file ["2x".toList] = .error .expectedNumber ∧
      parse_srt_file ["3".toList, "00:00:01,000 00:00:02,000".toList] =
        .error .expectedTwoTimestamps ∧
      parse_srt_file ["4".toList, "00:00:01,000 --> 00:00:02,000".toList, " ".toList] =
        .error .expectedText ∧
      parse_srt_file ["6".toList, "00:00:03,000 --> 00:00:04,000".toList] =
        .error .endedMidSubtitle ∧
      parse_srt_file ["5".toList] = .error .endedMidSubtitle := by
  refine ⟨?_, ?_, ?_, ?_, ?_⟩
  · exact parse_srt_file_rejects.1 "2x".toList [] (by decide) (by decide)
  · exact parse_srt_file_rejects.2.1 "3".toList "00:00:01,000 00:00:02,000".toList []
      (by decide) (by decide) (by decide)
  · exact parse_srt_file_rejects.2.2.2.1 "4".toList "00:00:01,000 --> 00:00:02,000".toList
      " ".toList (by decide) (by decide) (by decide) (by decide)
  · exact parse_srt_file_rejects.2.2.2.2.1 "6".toList "00:00:03,000 --> 00:00:04,000".toList
      (by decide) (by decide) (by decide)
  · exact parse_srt_file_rejects.2.2.2.2.2 "5".toList (by decide) (by decide)
